import Mathlib

/-!
Shallow embedding of the signal-scan / backtest engine of the Backtesting
repository (src/strategy_backtester.py, src/strategies.py, src/verify_math.py,
src/strategy_gui.py, src/app_web.py).

Prices are modelled as rationals, dates as naturals (ordered day keys), pandas
null (NaN) as `Option.none`, and the string markers of the source
("N/A" for insufficient data, "-" for not-applicable) as explicit constructors.
Python exceptions are modelled as `Option.none` results of the embedded
function.
-/

namespace Backtesting

/-- Python3 `round` on an exact value: round half to even, as an integer. -/
def roundHalfEven (x : ℚ) : ℤ :=
  let n : ℤ := ⌊x⌋
  let f : ℚ := x - n
  if f < 1/2 then n
  else if 1/2 < f then n + 1
  else if n % 2 = 0 then n else n + 1

/-- Python3 `round(x, 2)` on an exact value. -/
def round2 (x : ℚ) : ℚ :=
  (roundHalfEven (x * 100) : ℚ) / 100

/-- `StrategyBacktester._calc_return` (strategy_backtester.py lines 201-210):
holds for `days` bars from `buyIdx`; the close column of the frame is `closes`.
If `buy_idx + days` is a valid row, the rounded percentage return on
`buyPrice` is produced; otherwise the "N/A" marker, modelled as `none`. -/
def calcReturn (closes : List ℚ) (buyIdx days : ℕ) (buyPrice : ℚ) : Option ℚ :=
  closes[buyIdx + days]?.map
    (fun sellPrice => round2 ((sellPrice - buyPrice) / buyPrice * 100))

/-- `Series.rolling(window=w).mean()` over a close column: the value at row `i`
is defined only once `w` observations are available, and is the plain
arithmetic mean of rows `i+1-w .. i`. -/
def rollingMean (w : ℕ) (xs : List ℚ) : List (Option ℚ) :=
  (List.range xs.length).map (fun i =>
    if i + 1 < w then none
    else some ((((xs.drop (i + 1 - w)).take w).sum) / (w : ℚ)))

/-- The moving-average columns computed per security by the daily scan
`StrategyBacktester.run_scan` (strategy_backtester.py lines 99-101), keyed by
window length. -/
def runScanIndicators (closes : List ℚ) : List (ℕ × List (Option ℚ)) :=
  [(5, rollingMean 5 closes), (10, rollingMean 10 closes),
   (20, rollingMean 20 closes)]

/-- The moving-average columns computed per security by the weekly scan
`StrategyBacktester.run_weekly_scan` (strategy_backtester.py lines 251-254),
keyed by window length. -/
def runWeeklyScanIndicators (closes : List ℚ) : List (ℕ × List (Option ℚ)) :=
  [(5, rollingMean 5 closes), (10, rollingMean 10 closes),
   (20, rollingMean 20 closes), (60, rollingMean 60 closes)]

/-- One cell of a result row: the "-" marker, the "N/A" marker, or a number. -/
inductive Cell
  | dash
  | na
  | num (q : ℚ)
deriving DecidableEq, Repr

/-- One price bar of a security series (date key, 開盤, 收盤). -/
structure Bar where
  date : ℕ
  openPrice : ℚ
  close : ℚ
deriving DecidableEq, Repr

/-- One emitted scan-result row (the fields of the dicts built in
`run_scan` / `run_weekly_scan`): signal date, close at signal, buy date
(`none` models the "-" marker), buy price and the four horizon returns. -/
structure SignalRow where
  signalDate : ℕ
  closeAtSignal : ℚ
  buyDate : Option ℕ
  buyPrice : Cell
  ret5 : Cell
  ret10 : Cell
  ret20 : Cell
  ret60 : Cell
deriving DecidableEq, Repr

/-- Wrap a `_calc_return` result as a result cell ("N/A" for `none`). -/
def cellOfReturn (r : Option ℚ) : Cell :=
  match r with
  | some q => Cell.num q
  | none => Cell.na

/-- The signal rows `df_stock[df_stock.Signal]` of one security: the
(positional index, bar) pairs at which the boolean signal column is true. -/
def signalHits (bars : List Bar) (signal : List Bool) : List (ℕ × Bar) :=
  (List.range bars.length).filterMap (fun i =>
    match bars[i]?, signal[i]? with
    | some b, some true => some (i, b)
    | _, _ => none)

/-- The `[start_date, end_date]` filter applied to a signal date. -/
def inRange (startDate endDate : Option ℕ) (d : ℕ) : Bool :=
  (match startDate with
   | some s => decide (s ≤ d)
   | none => true) &&
  (match endDate with
   | some e => decide (d ≤ e)
   | none => true)

/-- The result row built by `run_scan` (strategy_backtester.py lines 182-194)
for a backtested daily signal: the entry bar is the bar after the signal bar,
the entry price its open, and the four horizon returns come from
`_calc_return` on the close column. -/
def mkDailyRow (bars : List Bar) (i : ℕ) (b buyBar : Bar) : SignalRow :=
  let closes := bars.map Bar.close
  { signalDate := b.date
    closeAtSignal := b.close
    buyDate := some buyBar.date
    buyPrice := Cell.num buyBar.openPrice
    ret5 := cellOfReturn (calcReturn closes (i + 1) 5 buyBar.openPrice)
    ret10 := cellOfReturn (calcReturn closes (i + 1) 10 buyBar.openPrice)
    ret20 := cellOfReturn (calcReturn closes (i + 1) 20 buyBar.openPrice)
    ret60 := cellOfReturn (calcReturn closes (i + 1) 60 buyBar.openPrice) }

/-- The latest-only result row built by `run_scan` (strategy_backtester.py
lines 156-165): entry-date, entry-price and every horizon-return field hold
the "-" marker. -/
def mkLatestRow (b : Bar) : SignalRow :=
  { signalDate := b.date
    closeAtSignal := b.close
    buyDate := none
    buyPrice := Cell.dash
    ret5 := Cell.dash
    ret10 := Cell.dash
    ret20 := Cell.dash
    ret60 := Cell.dash }

/-- The row-emission logic of `run_scan` (strategy_backtester.py lines
147-195) for one security and one strategy, given the computed boolean
signal column: if there is no signal, nothing; under `latest_only`, the first
signal dated at the security's last bar date (if any), with every entry field
"-"; otherwise, one row per date-filtered signal whose entry bar
(signal index + 1) exists, and a silent skip when it does not. -/
def runScanRows (bars : List Bar) (signal : List Bool) (latestOnly : Bool)
    (startDate endDate : Option ℕ) : List SignalRow :=
  if (signalHits bars signal).isEmpty then []
  else if latestOnly then
    match bars.getLast? with
    | none => []
    | some lastBar =>
      match ((signalHits bars signal).filter
          (fun p => p.2.date == lastBar.date)).head? with
      | some p => [mkLatestRow p.2]
      | none => []
  else
    ((signalHits bars signal).filter
        (fun p => inRange startDate endDate p.2.date)).filterMap
      (fun p =>
        match bars[p.1 + 1]? with
        | some buyBar => some (mkDailyRow bars p.1 p.2 buyBar)
        | none => none)

/-- The result row built by `run_weekly_scan` (strategy_backtester.py lines
336-355): the entry bar is the signal bar itself, the entry price its close,
and the four horizon returns come from `_calc_return` on the weekly close
column. -/
def mkWeeklyRow (bars : List Bar) (i : ℕ) (b : Bar) : SignalRow :=
  let closes := bars.map Bar.close
  { signalDate := b.date
    closeAtSignal := b.close
    buyDate := some b.date
    buyPrice := Cell.num b.close
    ret5 := cellOfReturn (calcReturn closes i 5 b.close)
    ret10 := cellOfReturn (calcReturn closes i 10 b.close)
    ret20 := cellOfReturn (calcReturn closes i 20 b.close)
    ret60 := cellOfReturn (calcReturn closes i 60 b.close) }

/-- The row-emission logic of `run_weekly_scan` (strategy_backtester.py lines
327-355) for one security and one strategy over the weekly frame: one row per
date-filtered signal; the function has no `latest_only` parameter and forward
returns are always computed. -/
def runWeeklyScanRows (bars : List Bar) (signal : List Bool)
    (startDate endDate : Option ℕ) : List SignalRow :=
  if (signalHits bars signal).isEmpty then []
  else
    ((signalHits bars signal).filter
        (fun p => inRange startDate endDate p.2.date)).map
      (fun p => mkWeeklyRow bars p.1 p.2)

/-- The weekly latest-only post-filter of `app_web.main` (app_web.py lines
103-106): when `latest_only` and the combined result table is nonempty, keep
exactly the rows whose signal date equals the maximum signal date over the
whole table (all securities and strategies together). -/
def appWebWeeklyLatest (latestOnly : Bool) (rows : List SignalRow) :
    List SignalRow :=
  if latestOnly && !rows.isEmpty then
    rows.filter
      (fun r => r.signalDate == rows.foldl (fun a r2 => max a r2.signalDate) 0)
  else rows

/-- Read position `i` of a nullable column (`none` past either end). -/
def getOpt (xs : List (Option ℚ)) (i : ℕ) : Option ℚ :=
  xs[i]?.join

/-- `Series.shift(shift)` read at position `i`: the value `shift` positions
earlier, `none` (NaN) for the first `shift` positions. -/
def shiftVal (xs : List (Option ℚ)) (shift i : ℕ) : Option ℚ :=
  if shift ≤ i then getOpt xs (i - shift) else none

/-- Pandas `>` on nullable operands: false whenever either side is null. -/
def gtOpt (a b : Option ℚ) : Bool :=
  match a, b with
  | some x, some y => decide (y < x)
  | _, _ => false

/-- Pandas `<=` on nullable operands: false whenever either side is null. -/
def leOpt (a b : Option ℚ) : Bool :=
  match a, b with
  | some x, some y => decide (x ≤ y)
  | _, _ => false

/-- Pandas `== 0` on a nullable operand: false on null. -/
def isZeroOpt (a : Option ℚ) : Bool :=
  match a with
  | some x => decide (x = 0)
  | none => false

/-- `Series.pct_change(fill_method=None)` over a nullable column: at row `i`,
`(x_i - x_(i-1)) / x_(i-1)` when both are present, else null; always null at
row 0. -/
def pctChange (xs : List (Option ℚ)) : List (Option ℚ) :=
  (List.range xs.length).map (fun i =>
    match i with
    | 0 => none
    | j + 1 =>
      match getOpt xs (j + 1), getOpt xs j with
      | some a, some b => some ((a - b) / b)
      | _, _ => none)

/-- The `*_Flat` signal column of `run_scan` (strategy_backtester.py lines
106-125): both moving averages have absolute percentage change exactly zero
today and on the previous row. -/
def flatSignal (maA maB : List (Option ℚ)) (n : ℕ) : List Bool :=
  let pa := (pctChange maA).map (Option.map abs)
  let pb := (pctChange maB).map (Option.map abs)
  (List.range n).map (fun i =>
    (isZeroOpt (getOpt pa i) && isZeroOpt (getOpt pb i)) &&
    (isZeroOpt (shiftVal pa 1 i) && isZeroOpt (shiftVal pb 1 i)))

/-- The `*_Eq_*_2Days` signal column of `run_scan` (strategy_backtester.py
lines 127-143): the absolute relative difference of the two moving averages
is exactly zero today and on the previous row. -/
def eqSignal (maA maB : List (Option ℚ)) (n : ℕ) : List Bool :=
  let d := (List.range (min maA.length maB.length)).map (fun i =>
    match getOpt maA i, getOpt maB i with
    | some a, some b => some (|a - b| / b)
    | _, _ => none)
  (List.range n).map (fun i =>
    isZeroOpt (getOpt d i) && isZeroOpt (shiftVal d 1 i))

/-- The strategy dispatch of `run_scan` (strategy_backtester.py lines
103-145): the six known identifiers produce a signal column over the
security's indicator frame; any other identifier resolves to nothing
(the `else: continue` branch). -/
def dailyStrategySignal (bars : List Bar) (strategyType : String) :
    Option (List Bool) :=
  let closes := bars.map Bar.close
  let ma5 := rollingMean 5 closes
  let ma10 := rollingMean 10 closes
  let ma20 := rollingMean 20 closes
  let n := bars.length
  if strategyType = "MA5_MA10_Flat" then some (flatSignal ma5 ma10 n)
  else if strategyType = "MA10_MA20_Flat" then some (flatSignal ma10 ma20 n)
  else if strategyType = "MA5_MA20_Flat" then some (flatSignal ma5 ma20 n)
  else if strategyType = "MA5_Eq_MA10_2Days" then some (eqSignal ma5 ma10 n)
  else if strategyType = "MA10_Eq_MA20_2Days" then some (eqSignal ma10 ma20 n)
  else if strategyType = "MA5_Eq_MA20_2Days" then some (eqSignal ma5 ma20 n)
  else none

/-- The per-strategy loop of `run_scan` (strategy_backtester.py lines
103-195) for one security: each requested identifier contributes its emitted
rows; an identifier that resolves to no known strategy contributes nothing.
The second component collects the log records emitted inside the loop — the
loop body of the source contains no logging call at all, so no iteration
appends a record. -/
def runScanStrategyLoop (bars : List Bar) (strategyTypes : List String)
    (latestOnly : Bool) (startDate endDate : Option ℕ) :
    List SignalRow × List String :=
  strategyTypes.foldl
    (fun acc st =>
      match dailyStrategySignal bars st with
      | some signal =>
        (acc.1 ++ runScanRows bars signal latestOnly startDate endDate, acc.2)
      | none => acc)
    ([], [])

/-- `CrossMAStrategy.calculate_signals` (strategies.py lines 56-59):
short above long today, short at or below long on the previous row; null
operands compare false. -/
def crossSignal (short long : List (Option ℚ)) (n : ℕ) : List Bool :=
  (List.range n).map (fun i =>
    gtOpt (getOpt short i) (getOpt long i) &&
    leOpt (shiftVal short 1 i) (shiftVal long 1 i))

/-- `DataFrame.rank(axis=1, method='max')` read at slot `j` of a window of
nullable values: a null slot gets a null rank; a non-null slot with value `v`
gets the count of non-null window values that are at most `v`, so larger
values get higher ranks and tied values share the higher rank. -/
def maxRankAt (window : List (Option ℚ)) (j : ℕ) : Option ℕ :=
  match getOpt window j with
  | some v =>
    some (window.countP (fun w =>
      match w with
      | some x => decide (x ≤ v)
      | none => false))
  | none => none

/-- The shifted window of one column used by
`MultiSequenceRanksStrategy.calculate_signals` (strategies.py lines 190-192):
slot `shift` holds the column's value `shift` rows back from row `i`. -/
def rankWindow (col : List (Option ℚ)) (numSteps i : ℕ) : List (Option ℚ) :=
  (List.range numSteps).map (fun shift => shiftVal col shift i)

/-- The per-column rank condition of
`MultiSequenceRanksStrategy.calculate_signals` (strategies.py lines 186-203)
at row `i`: every slot with a configured target rank must have exactly that
rank in the window's max-method ranking; a `none` target is skipped. -/
def rankCondAt (col : List (Option ℚ)) (targets : List (Option ℕ)) (i : ℕ) :
    Bool :=
  let window := rankWindow col targets.length i
  (List.range targets.length).all (fun shift =>
    match targets[shift]? with
    | some (some t) => maxRankAt window shift == some t
    | _ => true)

/-- An indicator frame as `_check_sequence` sees it: the length of the row
index and the named nullable columns. -/
structure Frame where
  n : ℕ
  cols : List (String × List (Option ℚ))

/-- `df[name]`: the column when the name is present (`none` = KeyError). -/
def getCol (df : Frame) (name : String) : Option (List (Option ℚ)) :=
  df.cols.lookup name

/-- One pairwise condition `df[a].shift(shift) > df[b].shift(shift)` of
`MultiSequenceStrategy._check_sequence` (strategies.py line 130), aligned to
the frame's index; `none` models a KeyError on a missing column. -/
def condSeries (df : Frame) (a b : String) (shift : ℕ) :
    Option (List Bool) :=
  match getCol df a, getCol df b with
  | some ca, some cb =>
    some ((List.range df.n).map (fun r =>
      gtOpt (shiftVal ca shift r) (shiftVal cb shift r)))
  | _, _ => none

/-- The condition list built by the loop of `_check_sequence` (strategies.py
lines 128-130) over the given pair indices; a failure at any pair aborts. -/
def seqConds (df : Frame) (seq : List String) (shift : ℕ) (idxs : List ℕ) :
    Option (List (List Bool)) :=
  match idxs with
  | [] => some []
  | i :: rest =>
    match condSeries df (seq.getD i "") (seq.getD (i + 1) "") shift,
          seqConds df seq shift rest with
    | some c, some cs => some (c :: cs)
    | _, _ => none

/-- `MultiSequenceStrategy._check_sequence` (strategies.py lines 113-135) on
the list branch: an empty list yields an all-True series over the index;
otherwise the pairwise strict comparisons are built and folded with `&`,
starting from `conditions[0]` — which raises IndexError (modelled `none`)
when the built condition list is empty, i.e. for a one-element sequence. -/
def checkSequence (df : Frame) (seq : List String) (shift : ℕ) :
    Option (List Bool) :=
  if seq.isEmpty then some (List.replicate df.n true)
  else
    match seqConds df seq shift (List.range (seq.length - 1)) with
    | none => none
    | some [] => none
    | some (c :: cs) =>
      some (cs.foldl (fun res c2 => res.zipWith and c2) c)

/-- A profit-factor value: a finite ratio or `float('inf')`. -/
inductive PFVal
  | num (q : ℚ)
  | posInf
deriving DecidableEq, Repr

/-- The summary produced by `calculate_metrics` (verify_math.py lines 42-50),
with every statistic kept as an exact number rather than a formatted string. -/
structure Metrics where
  count : ℕ
  avgRet : ℚ
  winRate : ℚ
  profitFactor : PFVal
  expectancy : ℚ
  mdd : ℚ
  maxConLosses : ℕ
deriving DecidableEq, Repr

/-- The length of the longest run of consecutive `true` flags; this is what
the groupby-cumsum-max idiom of verify_math.py line 40 (and
strategy_gui.py line 515) computes over the loss flags. -/
def maxRun (flags : List Bool) : ℕ :=
  (flags.foldl
    (fun (acc : ℕ × ℕ) f =>
      if f then (max acc.1 (acc.2 + 1), acc.2 + 1) else (acc.1, 0))
    (0, 0)).1

/-- The simple-interest equity curve `100 + valid_data.cumsum()`
(verify_math.py line 33) as a running sum from the given starting capital. -/
def equityCurve (start : ℚ) (xs : List ℚ) : List ℚ :=
  match xs with
  | [] => []
  | x :: rest => (start + x) :: equityCurve (start + x) rest

/-- The running-peak drawdown series `(equity - equity.cummax()) /
equity.cummax()` (verify_math.py lines 34-35), given the peak so far. -/
def drawdownsFrom (peak : ℚ) (es : List ℚ) : List ℚ :=
  match es with
  | [] => []
  | e :: rest =>
    ((e - max peak e) / max peak e) :: drawdownsFrom (max peak e) rest

/-- The drawdown series of an equity curve (the running peak starts at the
first equity value). -/
def drawdownSeries (es : List ℚ) : List ℚ :=
  match es with
  | [] => []
  | e :: rest => drawdownsFrom e (e :: rest)

/-- `Series.min()` of the drawdown series, 0 for the empty series (matching
the source's emptiness guard). -/
def minVal (xs : List ℚ) : ℚ :=
  match xs with
  | [] => 0
  | x :: rest => rest.foldl min x

/-- `calculate_metrics` (verify_math.py lines 4-50), the same computation as
`StrategyFrame.update_summary` (strategy_gui.py lines 484-515), over the
valid returns in ascending signal-date order: `none` models the early return
for an empty input (no statistic computed). -/
def calculateMetrics (returnsList : List ℚ) : Option Metrics :=
  if returnsList.isEmpty then none
  else
    let n : ℚ := returnsList.length
    let winData := returnsList.filter (fun r => 0 < r)
    let lossData := returnsList.filter (fun r => r ≤ 0)
    let avgRet := returnsList.sum / n
    let winRate := (winData.length : ℚ) / n * 100
    let totalProfit := winData.sum
    let totalLoss := |lossData.sum|
    let profitFactor :=
      if 0 < totalLoss then PFVal.num (totalProfit / totalLoss)
      else if 0 < totalProfit then PFVal.posInf
      else PFVal.num 0
    let avgProfit :=
      if winData.isEmpty then 0 else winData.sum / (winData.length : ℚ)
    let avgLoss :=
      if lossData.isEmpty then 0 else |lossData.sum / (lossData.length : ℚ)|
    let lossRate := (lossData.length : ℚ) / n
    let winRateDec := (winData.length : ℚ) / n
    let expectancy := winRateDec * avgProfit - lossRate * avgLoss
    let mdd := minVal (drawdownSeries (equityCurve 100 returnsList)) * 100
    let isLoss := returnsList.map (fun r => decide (r ≤ 0))
    some
      { count := returnsList.length
        avgRet := avgRet
        winRate := winRate
        profitFactor := profitFactor
        expectancy := expectancy
        mdd := mdd
        maxConLosses := maxRun isLoss }

/-- A 13-bar security series with a constant close price, on which the flat
moving-average strategies of the daily scan fire. -/
def constBars : List Bar :=
  (List.range 13).map (fun i => { date := i + 1, openPrice := 10, close := 10 })

/-- A small two-column indicator frame used as a concrete test input. -/
def sampleFrame : Frame :=
  { n := 3
    cols := [("MA5", [some 1, some 2, some 3]), ("MA10", [some 0, some 1, some 2])] }

/-! Helper lemmas. -/

theorem mem_signalHits (bars : List Bar) (signal : List Bool) (i : ℕ) (b : Bar) :
    (i, b) ∈ signalHits bars signal ↔
      bars[i]? = some b ∧ signal[i]? = some true := by
  constructor
  · intro h
    rcases List.mem_filterMap.mp h with ⟨j, _, hfj⟩
    rcases h1 : bars[j]? with _ | bj
    · simp [h1] at hfj
    · rcases h2 : signal[j]? with _ | s
      · simp [h1, h2] at hfj
      · cases s
        · simp [h1, h2] at hfj
        · simp only [h1, h2] at hfj
          have hpair := Option.some.inj hfj
          cases hpair
          exact ⟨h1, h2⟩
  · rintro ⟨h1, h2⟩
    apply List.mem_filterMap.mpr
    refine ⟨i, List.mem_range.mpr ?_, by simp [h1, h2]⟩
    rcases List.getElem?_eq_some.mp h1 with ⟨hlt, _⟩
    exact hlt

theorem le_foldl_max_sd (rows : List SignalRow) (a : ℕ) :
    a ≤ rows.foldl (fun x r => max x r.signalDate) a := by
  induction rows generalizing a with
  | nil => exact le_refl a
  | cons y ys ih =>
    exact le_trans (le_max_left a y.signalDate) (ih (max a y.signalDate))

theorem mem_le_foldl_max_sd (rows : List SignalRow) (r : SignalRow)
    (hr : r ∈ rows) (a : ℕ) :
    r.signalDate ≤ rows.foldl (fun x r2 => max x r2.signalDate) a := by
  induction rows generalizing a with
  | nil => cases hr
  | cons y ys ih =>
    rcases List.mem_cons.mp hr with rfl | h
    · exact le_trans (le_max_right a r.signalDate) (le_foldl_max_sd ys _)
    · exact ih h (max a y.signalDate)

theorem mem_appWebWeeklyLatest (rows : List SignalRow) (r : SignalRow)
    (hr : r ∈ appWebWeeklyLatest true rows) :
    r ∈ rows ∧ ∀ r2 ∈ rows, r2.signalDate ≤ r.signalDate := by
  unfold appWebWeeklyLatest at hr
  cases hE : rows.isEmpty
  · rw [hE] at hr
    simp only [Bool.not_false, Bool.and_true, if_true] at hr
    have := List.mem_filter.mp hr
    refine ⟨this.1, ?_⟩
    intro r2 h2
    have hmax : r.signalDate = rows.foldl (fun x r2 => max x r2.signalDate) 0 :=
      by simpa using this.2
    rw [hmax]
    exact mem_le_foldl_max_sd rows r2 h2 0
  · rw [List.isEmpty_iff.mp hE] at hr
    rw [List.isEmpty_iff.mp hE]
    simp at hr

theorem runScanRows_latest_shape (bars : List Bar) (signal : List Bool)
    (sd ed : Option ℕ) :
    runScanRows bars signal true sd ed = [] ∨
    ∃ p lastBar, bars.getLast? = some lastBar ∧
      p ∈ signalHits bars signal ∧ p.2.date = lastBar.date ∧
      runScanRows bars signal true sd ed = [mkLatestRow p.2] := by
  generalize hR : runScanRows bars signal true sd ed = rows
  unfold runScanRows at hR
  cases hE : (signalHits bars signal).isEmpty
  · rw [hE, if_neg Bool.false_ne_true, if_pos rfl] at hR
    cases hL : bars.getLast? with
    | none =>
      rw [hL] at hR
      exact Or.inl hR.symm
    | some lastBar =>
      rw [hL] at hR
      have hR2 : (match ((signalHits bars signal).filter
            (fun p => p.2.date == lastBar.date)).head? with
          | some p => [mkLatestRow p.2]
          | none => []) = rows := hR
      cases hFl : (signalHits bars signal).filter
          (fun p => p.2.date == lastBar.date) with
      | nil =>
        rw [hFl] at hR2
        exact Or.inl hR2.symm
      | cons q qs =>
        have hq := List.mem_filter.mp
          (hFl ▸ List.mem_cons_self q qs)
        rw [hFl] at hR2
        exact Or.inr ⟨q, lastBar, rfl, hq.1, by simpa using hq.2, hR2.symm⟩
  · rw [hE, if_pos rfl] at hR
    exact Or.inl hR.symm

theorem mem_runScanRows_back (bars : List Bar) (signal : List Bool)
    (sd ed : Option ℕ) (r : SignalRow)
    (hr : r ∈ runScanRows bars signal false sd ed) :
    ∃ i b buyBar, bars[i]? = some b ∧ signal[i]? = some true ∧
      bars[i + 1]? = some buyBar ∧ inRange sd ed b.date = true ∧
      r = mkDailyRow bars i b buyBar := by
  unfold runScanRows at hr
  cases hE : (signalHits bars signal).isEmpty
  · rw [hE, if_neg Bool.false_ne_true, if_neg Bool.false_ne_true] at hr
    rcases List.mem_filterMap.mp hr with ⟨⟨i, b⟩, hp, hfp⟩
    have hpf := List.mem_filter.mp hp
    dsimp only at hfp
    rcases h1 : bars[i + 1]? with _ | buyBar
    · rw [h1] at hfp
      simp at hfp
    · rw [h1] at hfp
      have heq := Option.some.inj hfp
      have hsh := (mem_signalHits bars signal i b).mp hpf.1
      exact ⟨i, b, buyBar, hsh.1, hsh.2, h1, by simpa using hpf.2, heq.symm⟩
  · rw [hE, if_pos rfl] at hr
    cases hr

theorem gtOpt_eq_true (a b : Option ℚ) :
    gtOpt a b = true ↔ ∃ x y, a = some x ∧ b = some y ∧ y < x := by
  cases a <;> cases b <;> simp [gtOpt]

theorem leOpt_eq_true (a b : Option ℚ) :
    leOpt a b = true ↔ ∃ x y, a = some x ∧ b = some y ∧ x ≤ y := by
  cases a <;> cases b <;> simp [leOpt]

theorem shiftVal_succ (xs : List (Option ℚ)) (i : ℕ) :
    shiftVal xs 1 (i + 1) = getOpt xs i := by
  unfold shiftVal
  simp

theorem crossSignal_getElem (short long : List (Option ℚ)) (n i : ℕ)
    (h : i < n) :
    (crossSignal short long n)[i]? =
      some (gtOpt (getOpt short i) (getOpt long i) &&
        leOpt (shiftVal short 1 i) (shiftVal long 1 i)) := by
  unfold crossSignal
  rw [List.getElem?_map, List.getElem?_range h]
  rfl

theorem crossSignal_length (short long : List (Option ℚ)) (n : ℕ) :
    (crossSignal short long n).length = n := by
  simp [crossSignal]

/-! Claim theorems. -/

/-- Claim C1: for every close column, entry index `b`, horizon `h` and entry
price `P` with `0 < P` (a real price), `_calc_return` returns the rounded
percentage `round((close at b+h − P)/P × 100, 2)` when `b + h` is a valid row
index, and the "N/A" marker — never a numeric value, in particular never 0 —
when `b + h` is past the last row. -/
theorem calcReturn_dichotomy (closes : List ℚ) (buyIdx days : ℕ)
    (buyPrice : ℚ) (_hp : 0 < buyPrice) :
    (buyIdx + days < closes.length →
      ∃ c, closes[buyIdx + days]? = some c ∧
        calcReturn closes buyIdx days buyPrice
          = some (round2 ((c - buyPrice) / buyPrice * 100))) ∧
    (closes.length ≤ buyIdx + days →
      calcReturn closes buyIdx days buyPrice = none) := by
  constructor
  · intro h
    exact ⟨closes[buyIdx + days], List.getElem?_eq_getElem h,
      by simp [calcReturn, List.getElem?_eq_getElem h]⟩
  · intro h
    simp [calcReturn, List.getElem?_eq_none h]

theorem calcReturn_dichotomy_witness :
    ((0 + 2 < ([4, 5, 6] : List ℚ).length →
      ∃ c, ([4, 5, 6] : List ℚ)[0 + 2]? = some c ∧
        calcReturn [4, 5, 6] 0 2 5 = some (round2 ((c - 5) / 5 * 100))) ∧
     (([4, 5, 6] : List ℚ).length ≤ 0 + 2 →
      calcReturn [4, 5, 6] 0 2 5 = none)) :=
  calcReturn_dichotomy [4, 5, 6] 0 2 5 (by norm_num)

/-- Claim C2: on the reference returns sequence
`[10, -5, 20, 0, -10, -10, 30, -5, 10, -5]` in ascending signal-date order,
the performance aggregation yields signal count 10, win rate 40.0%, profit
factor 2, expectancy +3.5, max consecutive losses 3 (the 0 return counts as a
loss) and max drawdown −16.00% on the 100-plus-cumulative-sum equity curve
with running-peak drawdown. -/
theorem calculateMetrics_reference_sequence :
    calculateMetrics [10, -5, 20, 0, -10, -10, 30, -5, 10, -5] =
      some
        { count := 10
          avgRet := 7/2
          winRate := 40
          profitFactor := PFVal.num 2
          expectancy := 7/2
          mdd := -16
          maxConLosses := 3 } := by
  norm_num [calculateMetrics, maxRun, equityCurve, drawdownSeries,
    drawdownsFrom, minVal, List.foldl, Metrics.mk.injEq, abs_div]

/-- Claim C3 counterexample: the daily scan does not compute the complete
window set {5, 10, 20, 60} — no window-60 column is computed for any
security (here the one-bar close column [1]). -/
theorem runScan_lacks_ma60 :
    ¬ (60 ∈ (runScanIndicators [(1 : ℚ)]).map Prod.fst) := by
  decide

/-- Claim C3 (amended): for every security's close column, the daily scan
computes exactly the rolling-mean columns for windows {5, 10, 20}, while the
weekly scan computes exactly the complete set {5, 10, 20, 60}; each computed
column is the rolling simple moving average of the close at its window. -/
theorem scanIndicatorWindows (closes : List ℚ) :
    (runScanIndicators closes).map Prod.fst = [5, 10, 20] ∧
    (runWeeklyScanIndicators closes).map Prod.fst = [5, 10, 20, 60] ∧
    (∀ w col,
      (w, col) ∈ runScanIndicators closes ∨
        (w, col) ∈ runWeeklyScanIndicators closes →
      col = rollingMean w closes) := by
  refine ⟨rfl, rfl, ?_⟩
  intro w col h
  rcases h with h | h
  · simp only [runScanIndicators, List.mem_cons, List.not_mem_nil, or_false,
      Prod.mk.injEq] at h
    rcases h with ⟨rfl, rfl⟩ | ⟨rfl, rfl⟩ | ⟨rfl, rfl⟩ <;> rfl
  · simp only [runWeeklyScanIndicators, List.mem_cons, List.not_mem_nil,
      or_false, Prod.mk.injEq] at h
    rcases h with ⟨rfl, rfl⟩ | ⟨rfl, rfl⟩ | ⟨rfl, rfl⟩ | ⟨rfl, rfl⟩ <;> rfl

theorem scanIndicatorWindows_witness :
    (runScanIndicators [(1 : ℚ)]).map Prod.fst = [5, 10, 20] ∧
    rollingMean 60 [(1 : ℚ)] = rollingMean 60 [(1 : ℚ)] :=
  ⟨(scanIndicatorWindows [1]).1,
    (scanIndicatorWindows [1]).2.2 60 (rollingMean 60 [1]) (Or.inr (by decide))⟩

/-- Claim C4 counterexample: in the weekly path, latest-only is applied after
the full scan and the retained row keeps its computed entry fields — for a
single one-bar security with a signal on that bar, the emitted row has a
numeric entry price (and "N/A" horizon returns), not the "-" marker. -/
theorem weeklyLatest_keeps_returns :
    ¬ (∀ r ∈ appWebWeeklyLatest true
        (runWeeklyScanRows [{ date := 1, openPrice := 10, close := 10 }]
          [true] none none),
        r.buyPrice = Cell.dash ∧ r.ret5 = Cell.dash ∧ r.ret10 = Cell.dash ∧
        r.ret20 = Cell.dash ∧ r.ret60 = Cell.dash) := by
  decide

/-- Claim C4 (amended): in the daily scan with latest-only set, the
`[start_date, end_date]` filter is not applied, at most one row per
security/strategy is emitted, and every emitted row carries the "-" marker in
its entry-date, entry-price and horizon-return fields and is dated at the
security's most recent bar date. In the weekly path, latest-only is instead
applied after the full scan: the retained rows are exactly scan-output rows
(with their computed entry and return fields) whose signal date equals the
maximum signal date over the whole result table. -/
theorem latestOnly_behavior (bars wbars : List Bar)
    (signal wsignal : List Bool) (sd ed wsd wed : Option ℕ) :
    runScanRows bars signal true sd ed
        = runScanRows bars signal true none none ∧
    (runScanRows bars signal true sd ed).length ≤ 1 ∧
    (∀ r ∈ runScanRows bars signal true sd ed,
      r.buyDate = none ∧ r.buyPrice = Cell.dash ∧ r.ret5 = Cell.dash ∧
      r.ret10 = Cell.dash ∧ r.ret20 = Cell.dash ∧ r.ret60 = Cell.dash ∧
      ∃ lastBar, bars.getLast? = some lastBar ∧
        r.signalDate = lastBar.date) ∧
    (∀ r ∈ appWebWeeklyLatest true (runWeeklyScanRows wbars wsignal wsd wed),
      r ∈ runWeeklyScanRows wbars wsignal wsd wed ∧
      ∀ r2 ∈ runWeeklyScanRows wbars wsignal wsd wed,
        r2.signalDate ≤ r.signalDate) := by
  refine ⟨rfl, ?_, ?_, ?_⟩
  · rcases runScanRows_latest_shape bars signal sd ed with h | ⟨p, _, _, _, _, h⟩
    · rw [h]; exact Nat.zero_le 1
    · rw [h]; exact le_refl 1
  · intro r hr
    rcases runScanRows_latest_shape bars signal sd ed with h | ⟨p, lastBar, hL, _, hd, h⟩
    · rw [h] at hr
      cases hr
    · rw [h] at hr
      rcases List.mem_singleton.mp hr with rfl
      exact ⟨rfl, rfl, rfl, rfl, rfl, rfl, lastBar, hL, hd⟩
  · intro r hr
    exact mem_appWebWeeklyLatest _ r hr

theorem latestOnly_behavior_witness :
    ((mkLatestRow { date := 2, openPrice := 3, close := 4 }).buyDate = none ∧
     (mkLatestRow { date := 2, openPrice := 3, close := 4 }).buyPrice
        = Cell.dash ∧
     (mkLatestRow { date := 2, openPrice := 3, close := 4 }).ret5
        = Cell.dash ∧
     (mkLatestRow { date := 2, openPrice := 3, close := 4 }).ret10
        = Cell.dash ∧
     (mkLatestRow { date := 2, openPrice := 3, close := 4 }).ret20
        = Cell.dash ∧
     (mkLatestRow { date := 2, openPrice := 3, close := 4 }).ret60
        = Cell.dash ∧
     ∃ lastBar,
       ([{ date := 1, openPrice := 1, close := 1 },
         { date := 2, openPrice := 3, close := 4 }] : List Bar).getLast?
          = some lastBar ∧
       (mkLatestRow { date := 2, openPrice := 3, close := 4 }).signalDate
          = lastBar.date) ∧
    ((mkWeeklyRow [{ date := 1, openPrice := 10, close := 10 }] 0
        { date := 1, openPrice := 10, close := 10 })
      ∈ runWeeklyScanRows [{ date := 1, openPrice := 10, close := 10 }]
          [true] none none) :=
  ⟨(latestOnly_behavior
      [{ date := 1, openPrice := 1, close := 1 },
       { date := 2, openPrice := 3, close := 4 }]
      [{ date := 1, openPrice := 10, close := 10 }]
      [false, true] [true] none none none none).2.2.1 _ (by decide),
   ((latestOnly_behavior
      [{ date := 1, openPrice := 1, close := 1 },
       { date := 2, openPrice := 3, close := 4 }]
      [{ date := 1, openPrice := 10, close := 10 }]
      [false, true] [true] none none none none).2.2.2 _ (by decide)).1⟩

/-- Claim C9: in a daily backtest scan (latest-only false), every emitted row
comes from a signal index whose entry bar (signal index + 1) exists — built by
`mkDailyRow` with real entry data — and a signal on the final available bar
produces no row at all: the all-and-only-final-bar signal column yields an
empty result, rather than a row with insufficient-data markers. -/
theorem finalBarSignal_no_row (bars : List Bar) (signal : List Bool)
    (sd ed : Option ℕ) :
    (∀ r ∈ runScanRows bars signal false sd ed,
      ∃ i b buyBar, bars[i]? = some b ∧ signal[i]? = some true ∧
        bars[i + 1]? = some buyBar ∧ r = mkDailyRow bars i b buyBar) ∧
    runScanRows bars
      ((List.range bars.length).map (fun i => decide (i + 1 = bars.length)))
      false sd ed = [] := by
  constructor
  · intro r hr
    obtain ⟨i, b, buyBar, h1, h2, h3, _, h5⟩ :=
      mem_runScanRows_back bars signal sd ed r hr
    exact ⟨i, b, buyBar, h1, h2, h3, h5⟩
  · by_contra h
    obtain ⟨r, hr⟩ := List.exists_mem_of_ne_nil _ h
    obtain ⟨i, b, buyBar, _, h2, h3, _, _⟩ :=
      mem_runScanRows_back bars _ sd ed r hr
    rw [List.getElem?_map] at h2
    rcases hm : (List.range bars.length)[i]? with _ | j
    · rw [hm] at h2
      cases h2
    · rw [hm] at h2
      obtain ⟨hjlt, hjv⟩ := List.getElem?_eq_some.mp hm
      rw [List.getElem_range] at hjv
      have hd := Option.some.inj h2
      rw [← hjv] at hd
      have hin : i + 1 = bars.length := of_decide_eq_true hd
      have hlt := (List.getElem?_eq_some.mp h3).1
      omega

theorem finalBarSignal_no_row_witness :
    ∃ i b buyBar,
      ([{ date := 1, openPrice := 1, close := 1 },
        { date := 2, openPrice := 2, close := 2 }] : List Bar)[i]? = some b ∧
      ([true, false] : List Bool)[i]? = some true ∧
      ([{ date := 1, openPrice := 1, close := 1 },
        { date := 2, openPrice := 2, close := 2 }] : List Bar)[i + 1]?
          = some buyBar ∧
      mkDailyRow
          [{ date := 1, openPrice := 1, close := 1 },
           { date := 2, openPrice := 2, close := 2 }] 0
          { date := 1, openPrice := 1, close := 1 }
          { date := 2, openPrice := 2, close := 2 }
        = mkDailyRow
          [{ date := 1, openPrice := 1, close := 1 },
           { date := 2, openPrice := 2, close := 2 }] i b buyBar :=
  (finalBarSignal_no_row
    [{ date := 1, openPrice := 1, close := 1 },
     { date := 2, openPrice := 2, close := 2 }]
    [true, false] none none).1 _ (by decide)

/-- Claim C6: the crossover predicate is true at row `i` iff short > long at
row `i` and short ≤ long at row `i − 1`, with all four operands present and
`i ≥ 1` — so it is false on a plateau (short = long today), false at the
first row, false on any null operand — and it cannot be true at two
consecutive rows. -/
theorem crossSignal_characterization (short long : List (Option ℚ))
    (n i : ℕ) (h : i < n) :
    ((crossSignal short long n)[i]? = some true ↔
      ∃ s0 l0 s1 l1, getOpt short i = some s0 ∧ getOpt long i = some l0 ∧
        1 ≤ i ∧ getOpt short (i - 1) = some s1 ∧
        getOpt long (i - 1) = some l1 ∧ l0 < s0 ∧ s1 ≤ l1) ∧
    ¬ ((crossSignal short long n)[i]? = some true ∧
       (crossSignal short long n)[i + 1]? = some true) := by
  constructor
  · rw [crossSignal_getElem short long n i h]
    constructor
    · intro hb
      have hb2 := Bool.and_eq_true _ _ ▸ Option.some.inj hb
      obtain ⟨s0, l0, hg1, hg2, hlt⟩ := (gtOpt_eq_true _ _).mp hb2.1
      have hle := hb2.2
      by_cases hi : 1 ≤ i
      · rw [show shiftVal short 1 i = getOpt short (i - 1) from by
            unfold shiftVal; rw [if_pos hi],
          show shiftVal long 1 i = getOpt long (i - 1) from by
            unfold shiftVal; rw [if_pos hi]] at hle
        obtain ⟨s1, l1, hl1, hl2, hxy⟩ := (leOpt_eq_true _ _).mp hle
        exact ⟨s0, l0, s1, l1, hg1, hg2, hi, hl1, hl2, hlt, hxy⟩
      · rw [show shiftVal short 1 i = none from by
            unfold shiftVal; rw [if_neg hi]] at hle
        cases hle
    · rintro ⟨s0, l0, s1, l1, hg1, hg2, hi, hl1, hl2, hlt, hxy⟩
      have e1 : shiftVal short 1 i = getOpt short (i - 1) := by
        unfold shiftVal; rw [if_pos hi]
      have e2 : shiftVal long 1 i = getOpt long (i - 1) := by
        unfold shiftVal; rw [if_pos hi]
      rw [e1, e2, hg1, hg2, hl1, hl2]
      simp [gtOpt, leOpt, hlt, hxy]
  · rintro ⟨ha, hb⟩
    by_cases hi1 : i + 1 < n
    · rw [crossSignal_getElem short long n i h] at ha
      rw [crossSignal_getElem short long n (i + 1) hi1] at hb
      have ha2 := Bool.and_eq_true _ _ ▸ Option.some.inj ha
      have hb2 := Bool.and_eq_true _ _ ▸ Option.some.inj hb
      obtain ⟨s0, l0, hg1, hg2, hlt⟩ := (gtOpt_eq_true _ _).mp ha2.1
      have hle := hb2.2
      rw [shiftVal_succ short i, shiftVal_succ long i] at hle
      obtain ⟨x, y, hx, hy, hxy⟩ := (leOpt_eq_true _ _).mp hle
      rw [hg1] at hx
      rw [hg2] at hy
      cases Option.some.inj hx
      cases Option.some.inj hy
      exact absurd hxy (not_le.mpr hlt)
    · rw [List.getElem?_eq_none_iff.mpr
        (by rw [crossSignal_length]; omega)] at hb
      cases hb

theorem crossSignal_characterization_witness :
    (((crossSignal [some 1, some 3] [some 2, some 2] 2)[1]? = some true ↔
      ∃ s0 l0 s1 l1,
        getOpt [some 1, some 3] 1 = some s0 ∧
        getOpt [some 2, some 2] 1 = some l0 ∧
        1 ≤ 1 ∧
        getOpt [some 1, some 3] (1 - 1) = some s1 ∧
        getOpt [some 2, some 2] (1 - 1) = some l1 ∧ l0 < s0 ∧ s1 ≤ l1) ∧
     ¬ ((crossSignal [some 1, some 3] [some 2, some 2] 2)[1]? = some true ∧
        (crossSignal [some 1, some 3] [some 2, some 2] 2)[1 + 1]?
          = some true)) :=
  crossSignal_characterization [some 1, some 3] [some 2, some 2] 2 1
    (by norm_num)

/-- Claim C5: for one indicator column and a target-rank vector assigning an
integer rank to every slot 0..k, the cross-time rank condition holds at row
`i` iff the max-method rank of the window value at each slot equals its
configured target; any null among the window values (a null `shiftVal` at
some slot) forces the condition false, never an error. -/
theorem rankCond_characterization (col : List (Option ℚ))
    (targets : List (Option ℕ)) (i : ℕ)
    (hall : ∀ t ∈ targets, Option.isSome t) :
    ((∃ s, s < targets.length ∧ shiftVal col s i = none) →
      rankCondAt col targets i = false) ∧
    (rankCondAt col targets i = true ↔
      ∀ s t, targets[s]? = some (some t) →
        maxRankAt (rankWindow col targets.length i) s = some t) := by
  have hiff : rankCondAt col targets i = true ↔
      ∀ s t, targets[s]? = some (some t) →
        maxRankAt (rankWindow col targets.length i) s = some t := by
    unfold rankCondAt
    rw [List.all_eq_true]
    constructor
    · intro hfa s t hst
      have hs : s ∈ List.range targets.length :=
        List.mem_range.mpr (List.getElem?_eq_some.mp hst).1
      have hv := hfa s hs
      rw [hst] at hv
      simpa using hv
    · intro hfa s hs
      rcases ht : targets[s]? with _ | t0
      · rfl
      · rcases t0 with _ | t
        · rfl
        · simpa using hfa s t ht
  refine ⟨?_, hiff⟩
  rintro ⟨s, hs, hnone⟩
  cases hb : rankCondAt col targets i
  · rfl
  · exfalso
    have hfa := hiff.mp hb
    rcases ht : targets[s]? with _ | t0
    · have := List.getElem?_eq_none_iff.mp ht
      omega
    · have hsome := hall t0 (List.getElem?_mem ht)
      rcases t0 with _ | t
      · cases hsome
      · have hrk := hfa s t ht
        have hwin : getOpt (rankWindow col targets.length i) s = none := by
          unfold getOpt rankWindow
          rw [List.getElem?_map, List.getElem?_range hs]
          simpa using hnone
        rw [show maxRankAt (rankWindow col targets.length i) s = none from by
          unfold maxRankAt; rw [hwin]] at hrk
        cases hrk

theorem rankCond_characterization_witness :
    (rankCondAt [some 1, some 2] [some 2, some 1] 1 = true ↔
      ∀ s t, ([some 2, some 1] : List (Option ℕ))[s]? = some (some t) →
        maxRankAt (rankWindow [some 1, some 2] 2 1) s = some t) ∧
    rankCondAt [some 1, some 2] [some 2, some 1] 0 = false :=
  ⟨(rankCond_characterization [some 1, some 2] [some 2, some 1] 1
      (by decide)).2,
   (rankCond_characterization [some 1, some 2] [some 2, some 1] 0
      (by decide)).1 ⟨1, by norm_num, rfl⟩⟩

/-- Claim C7 counterexample: an unresolvable identifier is not logged — the
per-strategy loop of the daily scan emits no log record at all when
processing ["NoSuchStrategy", "MA5_MA10_Flat"] over a one-bar security, while
the known identifier is still processed (the rows equal those of a scan
without the unknown identifier). -/
theorem unknownStrategy_silent :
    (runScanStrategyLoop [{ date := 1, openPrice := 10, close := 10 }]
        ["NoSuchStrategy", "MA5_MA10_Flat"] false none none).2 = [] ∧
    (runScanStrategyLoop [{ date := 1, openPrice := 10, close := 10 }]
        ["NoSuchStrategy", "MA5_MA10_Flat"] false none none).1 =
      (runScanStrategyLoop [{ date := 1, openPrice := 10, close := 10 }]
        ["MA5_MA10_Flat"] false none none).1 := by
  decide

/-- Claim C7 (amended): an identifier that does not resolve to a known
strategy is silently skipped — no log record is emitted for it — and the
scan does not abort or raise: removing the unknown identifier from the
requested list leaves the emitted rows and log records of the remaining
(known) identifiers unchanged. -/
theorem unknownStrategy_skipped (bars : List Bar) (pre post : List String)
    (u : String) (latestOnly : Bool) (sd ed : Option ℕ)
    (hu : dailyStrategySignal bars u = none) :
    runScanStrategyLoop bars (pre ++ u :: post) latestOnly sd ed =
      runScanStrategyLoop bars (pre ++ post) latestOnly sd ed := by
  unfold runScanStrategyLoop
  rw [List.foldl_append, List.foldl_append, List.foldl_cons, hu]

theorem unknownStrategy_skipped_witness :
    runScanStrategyLoop [{ date := 1, openPrice := 10, close := 10 }]
        ([] ++ "NoSuchStrategy" :: ["MA5_MA10_Flat"]) false none none =
      runScanStrategyLoop [{ date := 1, openPrice := 10, close := 10 }]
        ([] ++ ["MA5_MA10_Flat"]) false none none :=
  unknownStrategy_skipped [{ date := 1, openPrice := 10, close := 10 }]
    [] ["MA5_MA10_Flat"] "NoSuchStrategy" false none none (by decide)

/-- Claim C8: the performance aggregation computes profit_factor as
sum(positive returns) / abs(sum(non-positive returns)); when that denominator
is zero, profit_factor is +∞ if there is at least one positive return and 0
otherwise; and for an empty valid-return set no statistic is computed at all
— in no case is a division-by-zero error raised. -/
theorem profitFactor_cases (returnsList : List ℚ) :
    (returnsList = [] → calculateMetrics returnsList = none) ∧
    (returnsList ≠ [] →
      ∃ m, calculateMetrics returnsList = some m ∧
        m.count = returnsList.length ∧
        (|(returnsList.filter (fun r => r ≤ 0)).sum| ≠ 0 →
          m.profitFactor = PFVal.num
            ((returnsList.filter (fun r => 0 < r)).sum /
             |(returnsList.filter (fun r => r ≤ 0)).sum|)) ∧
        (|(returnsList.filter (fun r => r ≤ 0)).sum| = 0 →
          ((∃ r ∈ returnsList, 0 < r) → m.profitFactor = PFVal.posInf) ∧
          (¬ (∃ r ∈ returnsList, 0 < r) →
            m.profitFactor = PFVal.num 0))) := by
  constructor
  · intro h
    rw [h]
    rfl
  · intro h
    have hE : returnsList.isEmpty = false := by
      cases hx : returnsList.isEmpty
      · rfl
      · exact absurd (List.isEmpty_iff.mp hx) h
    unfold calculateMetrics
    rw [hE, if_neg Bool.false_ne_true]
    refine ⟨_, rfl, rfl, ?_, ?_⟩
    · intro h1
      have hpos : 0 < |(returnsList.filter (fun r => r ≤ 0)).sum| :=
        lt_of_le_of_ne (abs_nonneg _) (Ne.symm h1)
      show (if 0 < |(returnsList.filter (fun r => r ≤ 0)).sum| then _
        else _) = _
      rw [if_pos hpos]
    · intro h2
      have hnotpos : ¬ 0 < |(returnsList.filter (fun r => r ≤ 0)).sum| := by
        rw [h2]
        exact lt_irrefl 0
      constructor
      · rintro ⟨r, hr, hrpos⟩
        have hmem : r ∈ returnsList.filter (fun r => 0 < r) :=
          List.mem_filter.mpr ⟨hr, decide_eq_true hrpos⟩
        have hsum : 0 < (returnsList.filter (fun r => 0 < r)).sum :=
          List.sum_pos _
            (fun x hx => of_decide_eq_true (List.mem_filter.mp hx).2)
            (List.ne_nil_of_mem hmem)
        show (if 0 < |(returnsList.filter (fun r => r ≤ 0)).sum| then _
          else _) = _
        rw [if_neg hnotpos, if_pos hsum]
      · intro hno
        have hwin : returnsList.filter (fun r => 0 < r) = [] :=
          List.filter_eq_nil_iff.mpr (fun a ha hpa =>
            hno ⟨a, ha, of_decide_eq_true hpa⟩)
        have hns : ¬ 0 < (returnsList.filter (fun r => 0 < r)).sum := by
          rw [hwin]
          exact lt_irrefl 0
        show (if 0 < |(returnsList.filter (fun r => r ≤ 0)).sum| then _
          else _) = _
        rw [if_neg hnotpos, if_neg hns]

theorem profitFactor_cases_witness :
    calculateMetrics [] = none ∧
    (∃ m, calculateMetrics [(1 : ℚ)] = some m ∧
      m.count = 1 ∧ m.profitFactor = PFVal.posInf) := by
  refine ⟨(profitFactor_cases []).1 rfl, ?_⟩
  obtain ⟨m, hm, hc, _, hz⟩ := (profitFactor_cases [1]).2 (by simp)
  refine ⟨m, hm, hc, ?_⟩
  have h0 : |(([1] : List ℚ).filter (fun r => r ≤ 0)).sum| = 0 := by
    norm_num
  exact (hz h0).1 ⟨1, by simp, by norm_num⟩

theorem condSeries_some (df : Frame) (a b : String) (shift : ℕ)
    (ha : (getCol df a).isSome) (hb : (getCol df b).isSome) :
    ∃ c, condSeries df a b shift = some c ∧ c.length = df.n := by
  obtain ⟨ca, hca⟩ := Option.isSome_iff_exists.mp ha
  obtain ⟨cb, hcb⟩ := Option.isSome_iff_exists.mp hb
  refine ⟨(List.range df.n).map
    (fun r => gtOpt (shiftVal ca shift r) (shiftVal cb shift r)), ?_, by simp⟩
  unfold condSeries
  rw [hca, hcb]

theorem seqConds_some (df : Frame) (seq : List String) (shift : ℕ)
    (idxs : List ℕ)
    (h : ∀ i ∈ idxs, (getCol df (seq.getD i "")).isSome ∧
      (getCol df (seq.getD (i + 1) "")).isSome) :
    ∃ cs, seqConds df seq shift idxs = some cs ∧
      cs.length = idxs.length ∧ ∀ c ∈ cs, c.length = df.n := by
  induction idxs with
  | nil => exact ⟨[], rfl, rfl, by simp⟩
  | cons i rest ih =>
    obtain ⟨c, hc, hcl⟩ := condSeries_some df _ _ shift
      (h i (List.mem_cons_self i rest)).1 (h i (List.mem_cons_self i rest)).2
    obtain ⟨cs, hcs, hl, hall⟩ :=
      ih (fun j hj => h j (List.mem_cons_of_mem i hj))
    refine ⟨c :: cs, ?_, by simp [hl], ?_⟩
    · unfold seqConds
      rw [hc, hcs]
    · intro x hx
      rcases List.mem_cons.mp hx with rfl | hx
      · exact hcl
      · exact hall x hx

theorem foldl_zipWith_and_length (cs : List (List Bool)) (c : List Bool)
    (n : ℕ) (hc : c.length = n) (hcs : ∀ x ∈ cs, x.length = n) :
    (cs.foldl (fun res c2 => res.zipWith and c2) c).length = n := by
  induction cs generalizing c with
  | nil => exact hc
  | cons y ys ih =>
    refine ih (c.zipWith and y) ?_
      (fun x hx => hcs x (List.mem_cons_of_mem y hx))
    rw [List.length_zipWith, hc, hcs y (List.mem_cons_self y ys)]
    exact min_self n

theorem getD_mem_of_lt (seq : List String) (i : ℕ) (h : i < seq.length) :
    seq.getD i "" ∈ seq := by
  rw [List.getD_eq_getElem?_getD, List.getElem?_eq_getElem h]
  exact List.getElem_mem h

/-- Claim C10: in the list branch of the ordering-chain evaluation
`_check_sequence`, an empty column list yields an all-True series over the
frame's index; a list of length ≥ 2 whose names are all columns of the frame
yields a total boolean series aligned to the index, never raising; but a
one-element list hits `conditions[0]` on an empty condition list and raises
IndexError (modelled as `none`). -/
theorem checkSequence_spec (df : Frame) (seq : List String) (shift : ℕ) :
    checkSequence df [] shift = some (List.replicate df.n true) ∧
    (∀ name, checkSequence df [name] shift = none) ∧
    (2 ≤ seq.length → (∀ name ∈ seq, (getCol df name).isSome) →
      ∃ bs, checkSequence df seq shift = some bs ∧ bs.length = df.n) := by
  refine ⟨rfl, fun name => rfl, ?_⟩
  intro h2 hcols
  have hne : seq.isEmpty = false := by
    cases seq
    · simp at h2
    · rfl
  obtain ⟨cs, hcs, hlen, hall⟩ := seqConds_some df seq shift
    (List.range (seq.length - 1)) (fun i hi => by
      have hilt := List.mem_range.mp hi
      exact ⟨hcols _ (getD_mem_of_lt seq i (by omega)),
        hcols _ (getD_mem_of_lt seq (i + 1) (by omega))⟩)
  cases cs with
  | nil =>
    rw [List.length_range] at hlen
    simp at hlen
    omega
  | cons c cs2 =>
    refine ⟨cs2.foldl (fun res c2 => res.zipWith and c2) c, ?_,
      foldl_zipWith_and_length cs2 c df.n
        (hall c (List.mem_cons_self c cs2))
        (fun x hx => hall x (List.mem_cons_of_mem c hx))⟩
    unfold checkSequence
    rw [hne, if_neg Bool.false_ne_true, hcs]

theorem checkSequence_spec_witness :
    checkSequence sampleFrame [] 0 = some (List.replicate 3 true) ∧
    checkSequence sampleFrame ["MA5"] 0 = none ∧
    ∃ bs, checkSequence sampleFrame ["MA5", "MA10"] 0 = some bs ∧
      bs.length = 3 :=
  ⟨(checkSequence_spec sampleFrame ["MA5", "MA10"] 0).1,
   (checkSequence_spec sampleFrame ["MA5", "MA10"] 0).2.1 "MA5",
   (checkSequence_spec sampleFrame ["MA5", "MA10"] 0).2.2 (by norm_num)
     (by decide)⟩

end Backtesting
